import Mathlib

/-!
# Verification of the maybeasy optional-value algebra

Shallow embedding of the `Maybe` container from `src/Maybe.ts` (the
nullable-internal-state variant: a single class whose field `state` is
either a value of type `A` or the `null` sentinel) together with the free
functions of `src/functions.ts` (`sequence`, `traverse`, `fromNullable`,
`getOrElse`, `getOrElseValue`).

The sentinel `null` is modelled by `Option.none`; a non-null state `a` by
`Option.some a`.  Type parameters of the TypeScript generics are modelled
by Lean type variables (under strict null checking a generic parameter
excludes the sentinel).  For the dynamically-typed parts (the `typeof`
guard in `assign`, truthiness in the legacy `fromNullable` revision) a
small universe `JSVal` of JavaScript runtime values is used.
-/

namespace Maybeasy

/-- A JavaScript runtime value, as needed by the dynamic checks of the
source (`typeof`, truthiness, object spread).  `null` is not a `JSVal`:
it is the absence sentinel and is modelled by `Option.none` wherever the
source allows it. -/
inductive JSVal : Type where
  | vundefined : JSVal
  | vnum : Int → JSVal
  | vstr : String → JSVal
  | vbool : Bool → JSVal
  | vobj : List (String × JSVal) → JSVal
deriving Repr

/-- JavaScript `typeof` on a (non-null) runtime value. -/
def JSVal.typeof : JSVal → String
  | .vundefined => "undefined"
  | .vnum _ => "number"
  | .vstr _ => "string"
  | .vbool _ => "boolean"
  | .vobj _ => "object"

/-- JavaScript truthiness of a (non-null) runtime value: `undefined`, `0`,
the empty string and `false` are falsy; every object is truthy. -/
def JSVal.truthy : JSVal → Bool
  | .vundefined => false
  | .vnum n => n != 0
  | .vstr s => s != ""
  | .vbool b => b
  | .vobj _ => true

/-- Object spread followed by a computed key, `\x7b...obj, [k]: b\x7d`:
an existing key keeps its position and gets the new value, a fresh key is
appended at the end. -/
def insertField (k : String) (b : JSVal) : List (String × JSVal) → List (String × JSVal)
  | [] => [(k, b)]
  | (k', v) :: rest =>
      if k' = k then (k', b) :: rest else (k', v) :: insertField k b rest

/-- Type `Maybe` from `src/Maybe.ts`: a single class whose internal `state`
field is either a value of type `A` or `null` (here `Option.none`). -/
structure Maybe (α : Type) : Type where
  state : Option α
deriving Repr, DecidableEq

variable {α β γ : Type}

/-- Source `maybe(value)` — wraps a possibly-null value. -/
def maybe (value : Option α) : Maybe α :=
  Maybe.mk value

/-- Source `just(value)` — `new Maybe(value)` with a non-null value. -/
def just (value : α) : Maybe α :=
  Maybe.mk (some value)

/-- Source `nothing()` — `new Maybe(null)`. -/
def nothing : Maybe α :=
  Maybe.mk none

namespace Maybe

/-- Source `getOrElse(fn)`: `this.state === null ? fn() : this.state`. -/
def getOrElse (m : Maybe α) (fn : Unit → α) : α :=
  match m.state with
  | none => fn ()
  | some a => a

/-- Source `getOrElseValue(defaultValue)`: `this.getOrElse(() => defaultValue)`. -/
def getOrElseValue (m : Maybe α) (defaultValue : α) : α :=
  m.getOrElse (fun _ => defaultValue)

/-- Source `map(fn)`: `this.state === null ? nothing() : just(fn(this.state))`. -/
def map (m : Maybe α) (fn : α → β) : Maybe β :=
  match m.state with
  | none => nothing
  | some a => just (fn a)

/-- Source `andThen(fn)`: `this.state === null ? nothing() : fn(this.state)`. -/
def andThen (m : Maybe α) (fn : α → Maybe β) : Maybe β :=
  match m.state with
  | none => nothing
  | some a => fn a

/-- Source `orElse(fn)`: `this.state === null ? fn() : this`. -/
def orElse (m : Maybe α) (fn : Unit → Maybe α) : Maybe α :=
  match m.state with
  | none => fn ()
  | some _ => m

/-- Source `isJust()`: `this.state !== null`. -/
def isJust (m : Maybe α) : Bool :=
  m.state.isSome

/-- Source `isNothing()`: `this.state === null`. -/
def isNothing (m : Maybe α) : Bool :=
  m.state.isNone

end Maybe

/-- The `Catamorphism<A, B>` interface from `src/Catamorphism.ts`. -/
structure Catamorphism (α β : Type) : Type where
  onJust : α → β
  onNothing : Unit → β

/-- Source `cata(matcher)`: `this.state === null ? matcher.Nothing() : matcher.Just(this.state)`. -/
def Maybe.cata (m : Maybe α) (matcher : Catamorphism α β) : β :=
  match m.state with
  | none => matcher.onNothing ()
  | some a => matcher.onJust a

/-- Source `exists(predicate)`: `this.state !== null && predicate(this.state)`. -/
def Maybe.existsP (m : Maybe α) (predicate : α → Bool) : Bool :=
  match m.state with
  | none => false
  | some a => predicate a

/-- Source `filter(predicate)`: `this.exists(predicate) ? this : nothing()`. -/
def Maybe.filter (m : Maybe α) (predicate : α → Bool) : Maybe α :=
  if m.existsP predicate then m else nothing

/-- Source `ap(maybeFn)`: `maybeFn.isJust() ? this.map(maybeFn.state) : nothing()`. -/
def Maybe.ap (m : Maybe α) (maybeFn : Maybe (α → β)) : Maybe β :=
  match maybeFn.state with
  | some f => m.map f
  | none => nothing

/-- Instrumented `map`: same computation as `Maybe.map`, additionally
reporting whether `fn` was applied. -/
def Maybe.mapT (m : Maybe α) (fn : α → β) : Maybe β × Bool :=
  match m.state with
  | none => (nothing, false)
  | some a => (just (fn a), true)

/-- Instrumented `andThen`: same computation as `Maybe.andThen`,
additionally reporting whether `fn` was applied. -/
def Maybe.andThenT (m : Maybe α) (fn : α → Maybe β) : Maybe β × Bool :=
  match m.state with
  | none => (nothing, false)
  | some a => (fn a, true)

/-- The accumulator loop of `sequence` from `src/functions.ts`: walk the
array, return `nothing()` at the first element whose `state` is `null`,
otherwise push the state onto `result` and continue; wrap the final
`result` in `just`. -/
def sequenceLoop (acc : List α) : List (Maybe α) → Maybe (List α)
  | [] => just acc
  | m :: ms =>
    match m.state with
    | none => nothing
    | some a => sequenceLoop (acc ++ [a]) ms

/-- Source `sequence(maybes)` from `src/functions.ts`. -/
def sequence (maybes : List (Maybe α)) : Maybe (List α) :=
  sequenceLoop [] maybes

/-- Instrumented `sequenceLoop`: additionally counts how many elements of
the input array have had their `state` field examined. -/
def sequenceLoopT (acc : List α) (n : Nat) : List (Maybe α) → Maybe (List α) × Nat
  | [] => (just acc, n)
  | m :: ms =>
    match m.state with
    | none => (nothing, n + 1)
    | some a => sequenceLoopT (acc ++ [a]) (n + 1) ms

/-- Instrumented `sequence`, counting examined elements. -/
def sequenceT (maybes : List (Maybe α)) : Maybe (List α) × Nat :=
  sequenceLoopT [] 0 maybes

/-- Source `traverse(fn, values)` from `src/functions.ts`:
`sequence(values.map(fn))`. -/
def traverse (fn : α → Maybe β) (values : List α) : Maybe (List β) :=
  sequence (values.map fn)

lemma sequenceLoop_all_just :
    ∀ (l : List (Maybe α)) (acc : List α), (∀ m ∈ l, m.isJust = true) →
      sequenceLoop acc l = just (acc ++ l.filterMap (fun m => m.state))
  | [], acc, _ => by simp [sequenceLoop]
  | m :: ms, acc, h => by
    have hm : m.isJust = true := h m (List.mem_cons_self m ms)
    obtain ⟨a, ha⟩ := Option.isSome_iff_exists.mp hm
    have hrest : ∀ x ∈ ms, x.isJust = true := fun x hx => h x (List.mem_cons_of_mem m hx)
    simp only [sequenceLoop, ha]
    rw [sequenceLoop_all_just ms (acc ++ [a]) hrest]
    simp [ha]

lemma sequenceLoop_isJust :
    ∀ (l : List (Maybe α)) (acc : List α),
      (sequenceLoop acc l).isJust = l.all (fun m => m.isJust)
  | [], acc => rfl
  | m :: ms, acc => by
    cases hm : m.state with
    | none =>
      simp [sequenceLoop, hm, Maybe.isJust, nothing, List.all_cons, Option.isSome]
    | some a =>
      simp only [sequenceLoop, hm, List.all_cons]
      rw [sequenceLoop_isJust ms (acc ++ [a])]
      simp [Maybe.isJust, hm, Option.isSome]

lemma sequenceLoop_first_nothing :
    ∀ (l1 : List (Maybe α)) (acc : List α) (l2 : List (Maybe α)),
      sequenceLoop acc (l1 ++ nothing :: l2) = nothing
  | [], acc, l2 => rfl
  | m :: ms, acc, l2 => by
    cases hm : m.state with
    | none => simp [sequenceLoop, hm]
    | some a =>
      simp only [List.cons_append, sequenceLoop, hm]
      exact sequenceLoop_first_nothing ms (acc ++ [a]) l2

lemma sequenceLoopT_count :
    ∀ (l1 : List (Maybe α)) (acc : List α) (n : Nat) (l2 : List (Maybe α)),
      (∀ m ∈ l1, m.isJust = true) →
      (sequenceLoopT acc n (l1 ++ nothing :: l2)).2 = n + l1.length + 1
  | [], acc, n, l2, _ => rfl
  | m :: ms, acc, n, l2, h => by
    have hm : m.isJust = true := h m (List.mem_cons_self m ms)
    obtain ⟨a, ha⟩ := Option.isSome_iff_exists.mp hm
    have hrest : ∀ x ∈ ms, x.isJust = true := fun x hx => h x (List.mem_cons_of_mem m hx)
    simp only [List.cons_append, sequenceLoopT, ha, List.append_eq]
    rw [sequenceLoopT_count ms (acc ++ [a]) (n + 1) l2 hrest]
    simp [List.length_cons]
    omega

/-- C4.  `sequence`: if every element is present the result is present
and holds the contained values in input order; the result is present iff
every element is present; a list with an absent element yields an absent
result whatever follows; and when the elements before the first absent
one are all present, exactly the elements up to and including that first
absent one are examined (so nothing after it is looked at). -/
theorem claimC4_sequence (l l1 l2 : List (Maybe α)) :
    ((∀ m ∈ l, m.isJust = true) →
        sequence l = just (l.filterMap (fun m => m.state))) ∧
    ((sequence l).isJust = l.all (fun m => m.isJust)) ∧
    (sequence (l1 ++ nothing :: l2) = nothing) ∧
    ((∀ m ∈ l1, m.isJust = true) →
        (sequenceT (l1 ++ nothing :: l2)).2 = l1.length + 1) := by
  refine ⟨fun h => ?_, ?_, ?_, fun h => ?_⟩
  · rw [sequence, sequenceLoop_all_just l [] h]
    simp
  · exact sequenceLoop_isJust l []
  · exact sequenceLoop_first_nothing l1 [] l2
  · rw [sequenceT, sequenceLoopT_count l1 [] 0 l2 h]
    omega

/-- Witness for C4 at the spec's concrete inputs. -/
theorem claimC4_sequence_witness :
    sequence [just 1, just 2, just 3] = just [1, 2, 3] ∧
    sequence [just 1, nothing, just 3] = (nothing : Maybe (List Nat)) ∧
    (sequenceT [just 1, nothing, just 3]).2 = 2 := by
  have h := claimC4_sequence (α := Nat) [just 1, just 2, just 3] [just 1] [just 3]
  exact ⟨h.1 (by decide), h.2.2.1, h.2.2.2 (by decide)⟩

/-- C5.  `traverse fn values` is exactly `sequence` of the list obtained
by mapping `fn` over `values` (the source defines it that way, so both
sides agree on every input). -/
theorem claimC5_traverse (fn : α → Maybe β) (values : List α) :
    traverse fn values = sequence (values.map fn) := rfl

/-- C1.  Mapping or chaining over an absent `Maybe` yields an absent
`Maybe`, and the supplied function is never invoked (the instrumented
variants report no application). -/
theorem claimC1_absent_absorption (f : α → β) (g : α → Maybe β) :
    (nothing : Maybe α).map f = nothing ∧
    (nothing : Maybe α).andThen g = nothing ∧
    (nothing : Maybe α).mapT f = (nothing, false) ∧
    (nothing : Maybe α).andThenT g = (nothing, false) := by
  refine ⟨rfl, rfl, rfl, rfl⟩

/-- C2.  Functor laws for `map` on a present `Maybe`: mapping the
identity is the identity, and mapping `g` then `f` equals mapping the
composite. -/
theorem claimC2_functor_laws (v : α) (g : α → β) (f : β → γ) :
    (just v).map (fun x => x) = just v ∧
    ((just v).map g).map f = (just v).map (fun x => f (g x)) := by
  exact ⟨rfl, rfl⟩

/-- C3.  Monad identity laws: `just v |>.andThen f = f v` (left
identity), and `m.andThen just = m` (right identity), where `just` is the
library's `of`. -/
theorem claimC3_monad_identities (v : α) (f : α → Maybe β) (m : Maybe α) :
    (just v).andThen f = f v ∧ m.andThen just = m := by
  refine ⟨rfl, ?_⟩
  obtain ⟨s⟩ := m
  cases s <;> rfl

/-- Resolution of the `other` argument of `assign`:
`typeof other === "function" ? other(this.state) : other`. -/
def resolveOther (a : JSVal) : Maybe JSVal ⊕ (JSVal → Maybe JSVal) → Maybe JSVal
  | .inl mb => mb
  | .inr f => f a

/-- Source `assign(k, other)` from `src/Maybe.ts`, over runtime values: return
`nothing()` when `state` is `null`; return `nothing()` when
`typeof this.state !== "object"` (the redundant `|| this.state === null`
of the source is subsumed by the first branch); otherwise resolve `other`
and map the spread `\x7b...this.state, [k]: b\x7d` over it.  The non-object
arm of the inner match is unreachable behind the `typeof` guard. -/
def Maybe.assign (m : Maybe JSVal) (k : String)
    (other : Maybe JSVal ⊕ (JSVal → Maybe JSVal)) : Maybe JSVal :=
  match m.state with
  | none => nothing
  | some a =>
    if a.typeof ≠ "object" then nothing
    else
      (resolveOther a other).map (fun b =>
        match a with
        | .vobj fields => .vobj (insertField k b fields)
        | _ => .vobj [(k, b)])

/-- Instrumented `assign`: same computation as `Maybe.assign`,
additionally reporting whether the function form of `other` was
invoked. -/
def Maybe.assignT (m : Maybe JSVal) (k : String)
    (other : Maybe JSVal ⊕ (JSVal → Maybe JSVal)) : Maybe JSVal × Bool :=
  match m.state with
  | none => (nothing, false)
  | some a =>
    if a.typeof ≠ "object" then (nothing, false)
    else
      match other with
      | .inl mb =>
        (mb.map (fun b =>
          match a with
          | .vobj fields => JSVal.vobj (insertField k b fields)
          | _ => JSVal.vobj [(k, b)]), false)
      | .inr f =>
        ((f a).map (fun b =>
          match a with
          | .vobj fields => JSVal.vobj (insertField k b fields)
          | _ => JSVal.vobj [(k, b)]), true)

/-- C6.  `assign(k, otherOrFn)`: absent receiver gives absent; a present
object receiver whose `otherOrFn` resolves to `just b` gives a present
result holding the old aggregate extended with the pair `(k, b)`; a
present object receiver whose `otherOrFn` resolves to absent gives
absent. -/
theorem claimC6_assign (k : String)
    (other : Maybe JSVal ⊕ (JSVal → Maybe JSVal)) :
    ((nothing : Maybe JSVal).assign k other = nothing) ∧
    (∀ (fields : List (String × JSVal)) (b : JSVal),
        resolveOther (JSVal.vobj fields) other = just b →
        (just (JSVal.vobj fields)).assign k other
          = just (JSVal.vobj (insertField k b fields))) ∧
    (∀ fields : List (String × JSVal),
        resolveOther (JSVal.vobj fields) other = nothing →
        (just (JSVal.vobj fields)).assign k other = nothing) := by
  refine ⟨rfl, fun fields b hres => ?_, fun fields hres => ?_⟩
  · simp only [Maybe.assign, just, JSVal.typeof, ne_eq, not_true_eq_false, if_false, hres]
    rfl
  · simp only [Maybe.assign, just, JSVal.typeof, ne_eq, not_true_eq_false, if_false, hres]
    rfl

/-- Witness for C6: the spec's `present(\x7b\x7d).assign("a", present(1))`
scenario. -/
theorem claimC6_assign_witness :
    (just (JSVal.vobj [])).assign "a" (Sum.inl (just (JSVal.vnum 1)))
      = just (JSVal.vobj [("a", JSVal.vnum 1)]) :=
  (claimC6_assign "a" (Sum.inl (just (JSVal.vnum 1)))).2.1 [] (JSVal.vnum 1) rfl

/-- C10.  `assign` on a present receiver holding a non-object (primitive)
value returns absent without invoking the function form of `otherOrFn`:
the `typeof` guard is an absent-producing fallback, not an exception. -/
theorem claimC10_assign_primitive (k : String)
    (other : Maybe JSVal ⊕ (JSVal → Maybe JSVal)) (v : JSVal)
    (hprim : v.typeof ≠ "object") :
    (just v).assignT k other = (nothing, false) ∧
    (just v).assign k other = nothing := by
  constructor
  · simp [Maybe.assignT, just, hprim]
  · simp [Maybe.assign, just, hprim]

/-- Witness for C10: a present number receiver with a function-form
`other`. -/
theorem claimC10_assign_primitive_witness :
    (just (JSVal.vnum 5)).assignT "a" (Sum.inr (fun _ => just (JSVal.vnum 1)))
      = (nothing, false) :=
  (claimC10_assign_primitive "a" (Sum.inr (fun _ => just (JSVal.vnum 1)))
    (JSVal.vnum 5) (by decide)).1

/-- The input of `fromNullable`: a value of type `T`, or one of the two
absence sentinels `null` and `undefined` (`T | Nullable` in the
source). -/
inductive Nullable (α : Type) : Type where
  | val : α → Nullable α
  | null : Nullable α
  | undefined : Nullable α

/-- Source `fromNullable(v)` from `src/functions.ts` (current revision, lines
16–21): `nothing()` when `typeof v === "undefined" || v === null`, else
`just(v)`. -/
def fromNullable : Nullable α → Maybe α
  | .null => nothing
  | .undefined => nothing
  | .val v => just v

/-- Source `fromNullable(v)` from the legacy revision at the tail of
`src/functions.ts` (lines 607–612): `if (v) return just(v); return
nothing()` — a truthiness test, so falsy non-sentinel values also give
`nothing()`. -/
def fromNullableTruthy : Nullable JSVal → Maybe JSVal
  | .val v => if v.truthy then just v else nothing
  | .null => nothing
  | .undefined => nothing

/-- C7 counterexample: with the truthiness-based `fromNullable` revision
(functions.ts lines 607–612, one of the claim's two cited sources), the
round-trip fails at the falsy non-sentinel input `0` with default `5`:
the result is the default `5`, not `0`. -/
theorem claimC7_counterexample :
    (fromNullableTruthy (Nullable.val (JSVal.vnum 0))).getOrElseValue (JSVal.vnum 5)
        = JSVal.vnum 5 ∧
    JSVal.vnum 5 ≠ JSVal.vnum 0 := by
  refine ⟨rfl, fun h => ?_⟩
  have h5 : (5 : Int) = 0 := JSVal.vnum.inj h
  exact absurd h5 (by decide)

/-- C7 amended.  For the strict-sentinel `fromNullable` (lines 16–21)
the round-trip holds exactly as claimed: non-sentinel input is returned,
sentinel input (`null` or `undefined`) gives the default.  For the
truthiness-based revision (lines 607–612) the round-trip holds only for
truthy inputs; falsy non-sentinel inputs (such as `0`) give the
default. -/
theorem claimC7_roundtrip_amended (x d : α) (y e : JSVal) :
    ((fromNullable (Nullable.val x)).getOrElseValue d = x) ∧
    ((fromNullable (Nullable.null : Nullable α)).getOrElseValue d = d) ∧
    ((fromNullable (Nullable.undefined : Nullable α)).getOrElseValue d = d) ∧
    (y.truthy = true →
      (fromNullableTruthy (Nullable.val y)).getOrElseValue e = y) ∧
    (y.truthy = false →
      (fromNullableTruthy (Nullable.val y)).getOrElseValue e = e) ∧
    ((fromNullableTruthy Nullable.null).getOrElseValue e = e) ∧
    ((fromNullableTruthy Nullable.undefined).getOrElseValue e = e) := by
  refine ⟨rfl, rfl, rfl, fun ht => ?_, fun ht => ?_, rfl, rfl⟩
  · simp [fromNullableTruthy, ht]
    rfl
  · simp [fromNullableTruthy, ht]
    rfl

/-- Witness for the amended C7 at concrete inputs. -/
theorem claimC7_roundtrip_amended_witness :
    (fromNullable (Nullable.val (3 : Int))).getOrElseValue 7 = 3 ∧
    (fromNullableTruthy (Nullable.val (JSVal.vnum 2))).getOrElseValue (JSVal.vnum 9)
        = JSVal.vnum 2 := by
  have h := claimC7_roundtrip_amended (3 : Int) 7 (JSVal.vnum 2) (JSVal.vnum 9)
  exact ⟨h.1, h.2.2.2.1 (by decide)⟩

/-! ## Heap model for the immutability claim

To make "no operation mutates an existing instance" non-vacuous, the
operations are re-translated over an explicit heap: a list of cells, one
per allocated `Maybe` instance, each holding that instance's `state`
field.  `new Maybe(v)` appends a cell; no statement of any method body
assigns to `this.state`, so each translated operation can only append.
Caller-supplied `Maybe`-returning or effectful callbacks receive the heap
and are assumed to only extend it (a mutating callback is outside the
algebra). -/

/-- The heap: cell `r` is the `state` field of the `r`-th allocated
`Maybe` instance. -/
abbrev Store : Type := List (Option JSVal)

/-- Read the `state` field of instance `r` (out-of-range reads, which the
model never produces, give `null`). -/
def Store.read (s : Store) (r : Nat) : Option JSVal :=
  s.getD r none

/-- Allocation `new Maybe(v)`: append a cell, return the new heap and the new
instance's reference. -/
def Store.alloc (s : Store) (v : Option JSVal) : Store × Nat :=
  (s ++ [v], s.length)

/-- The object spread `\x7b...a, [k]: b\x7d` used by `assign` (the
non-object arm is unreachable behind the `typeof` guard). -/
def spreadVal (a : JSVal) (k : String) (b : JSVal) : JSVal :=
  match a with
  | .vobj fields => .vobj (insertField k b fields)
  | _ => .vobj [(k, b)]

/-- Heap translation of `getOrElse(fn)`. -/
def getOrElseH (fn : Unit → JSVal) (s : Store) (r : Nat) : Store × JSVal :=
  match Store.read s r with
  | none => (s, fn ())
  | some a => (s, a)

/-- Heap translation of `getOrElseValue(d)`: `getOrElse(() => d)`. -/
def getOrElseValueH (d : JSVal) (s : Store) (r : Nat) : Store × JSVal :=
  getOrElseH (fun _ => d) s r

/-- Heap translation of `map(fn)`: read the state, allocate the result
instance (`nothing()` or `just(fn(a))`). -/
def mapH (fn : JSVal → JSVal) (s : Store) (r : Nat) : Store × Nat :=
  match Store.read s r with
  | none => Store.alloc s none
  | some a => Store.alloc s (some (fn a))

/-- Heap translation of `andThen(fn)`: the callback allocates the result
instance itself. -/
def andThenH (fn : JSVal → Store → Store × Nat) (s : Store) (r : Nat) : Store × Nat :=
  match Store.read s r with
  | none => Store.alloc s none
  | some a => fn a s

/-- Heap translation of `orElse(fn)`: present returns `this` (same
reference), absent defers to the callback. -/
def orElseH (fn : Unit → Store → Store × Nat) (s : Store) (r : Nat) : Store × Nat :=
  match Store.read s r with
  | none => fn () s
  | some _ => (s, r)

/-- Heap translation of `cata(matcher)`: a pure fold, no allocation. -/
def cataH (matcher : Catamorphism JSVal JSVal) (s : Store) (r : Nat) : Store × JSVal :=
  match Store.read s r with
  | none => (s, matcher.onNothing ())
  | some a => (s, matcher.onJust a)

/-- Heap translation of `exists(predicate)`. -/
def existsH (p : JSVal → Bool) (s : Store) (r : Nat) : Store × Bool :=
  match Store.read s r with
  | none => (s, false)
  | some a => (s, p a)

/-- Heap translation of `filter(predicate)`:
`this.exists(predicate) ? this : nothing()`. -/
def filterH (p : JSVal → Bool) (s : Store) (r : Nat) : Store × Nat :=
  if (existsH p s r).2 then (s, r) else Store.alloc s none

/-- Heap translation of `ap(maybeFn)`: `maybeFn`'s state is passed
directly; present function state maps, absent allocates `nothing()`. -/
def apH (fnState : Option (JSVal → JSVal)) (s : Store) (r : Nat) : Store × Nat :=
  match fnState with
  | some f => mapH f s r
  | none => Store.alloc s none

/-- Heap translation of `assign(k, other)`; the `Maybe` form of `other`
is passed as its state, the function form allocates its own result. -/
def assignH (k : String) (other : Option JSVal ⊕ (JSVal → Store → Store × Nat))
    (s : Store) (r : Nat) : Store × Nat :=
  match Store.read s r with
  | none => Store.alloc s none
  | some a =>
    if a.typeof ≠ "object" then Store.alloc s none
    else
      match other with
      | .inl none => Store.alloc s none
      | .inl (some b) => Store.alloc s (some (spreadVal a k b))
      | .inr f =>
        let res := f a s
        mapH (fun b => spreadVal a k b) res.1 res.2

/-- Heap translation of `do(fn)`: run the side effect when present,
return `this`. -/
def doH (eff : JSVal → Store → Store) (s : Store) (r : Nat) : Store × Nat :=
  match Store.read s r with
  | none => (s, r)
  | some a => (eff a s, r)

/-- Heap translation of `elseDo(fn)`: run the side effect when absent,
return `this`. -/
def elseDoH (eff : Unit → Store → Store) (s : Store) (r : Nat) : Store × Nat :=
  match Store.read s r with
  | none => (eff () s, r)
  | some _ => (s, r)

lemma alloc_extendsStore (s : Store) (v : Option JSVal) : s <+: (Store.alloc s v).1 :=
  List.prefix_append s [v]

lemma prefix_read {s t : Store} (h : s <+: t) {q : Nat} (hq : q < s.length) :
    Store.read t q = Store.read s q := by
  obtain ⟨u, rfl⟩ := h
  simp only [Store.read, List.getD, List.get?_eq_getElem?]
  rw [List.getElem?_append_left hq]

lemma mapH_extendsStore (fn : JSVal → JSVal) (s : Store) (r : Nat) :
    s <+: (mapH fn s r).1 := by
  unfold mapH
  cases Store.read s r <;> exact alloc_extendsStore s _

lemma andThenH_extendsStore (fn : JSVal → Store → Store × Nat)
    (hfn : ∀ a t, t <+: (fn a t).1) (s : Store) (r : Nat) :
    s <+: (andThenH fn s r).1 := by
  unfold andThenH
  cases Store.read s r with
  | none => exact alloc_extendsStore s none
  | some a => exact hfn a s

lemma orElseH_extendsStore (fn : Unit → Store → Store × Nat)
    (hfn : ∀ t, t <+: (fn () t).1) (s : Store) (r : Nat) :
    s <+: (orElseH fn s r).1 := by
  unfold orElseH
  cases Store.read s r with
  | none => exact hfn s
  | some a => exact List.prefix_refl s

lemma filterH_extendsStore (p : JSVal → Bool) (s : Store) (r : Nat) :
    s <+: (filterH p s r).1 := by
  unfold filterH
  by_cases h : (existsH p s r).2 = true
  · simp [h]
  · simp [h]
    exact alloc_extendsStore s none

lemma apH_extendsStore (fnState : Option (JSVal → JSVal)) (s : Store) (r : Nat) :
    s <+: (apH fnState s r).1 := by
  unfold apH
  cases fnState with
  | none => exact alloc_extendsStore s none
  | some f => exact mapH_extendsStore f s r

lemma assignH_extendsStore (k : String)
    (other : Option JSVal ⊕ (JSVal → Store → Store × Nat))
    (hother : ∀ f, other = Sum.inr f → ∀ a t, t <+: (f a t).1)
    (s : Store) (r : Nat) : s <+: (assignH k other s r).1 := by
  unfold assignH
  split
  · exact alloc_extendsStore s none
  · split
    · exact alloc_extendsStore s none
    · split
      · exact alloc_extendsStore s none
      · exact alloc_extendsStore s _
      · rename_i _x a _heq _hty _other f
        have h1 : s <+: (f a s).1 := hother f rfl a s
        exact h1.trans (mapH_extendsStore _ (f a s).1 (f a s).2)

lemma doH_extendsStore (eff : JSVal → Store → Store)
    (heff : ∀ a t, t <+: eff a t) (s : Store) (r : Nat) :
    s <+: (doH eff s r).1 := by
  unfold doH
  cases Store.read s r with
  | none => exact List.prefix_refl s
  | some a => exact heff a s

lemma elseDoH_extendsStore (eff : Unit → Store → Store)
    (heff : ∀ t, t <+: eff () t) (s : Store) (r : Nat) :
    s <+: (elseDoH eff s r).1 := by
  unfold elseDoH
  cases Store.read s r with
  | none => exact heff s
  | some a => exact List.prefix_refl s

/-- C9.  No operation of the algebra mutates an existing instance: after
any call, the `state` cell of every previously allocated instance (in
particular the receiver's) reads exactly as before.  Callbacks that
receive the heap (`andThen`, `orElse`, the function form of `assign`,
`do`, `elseDo`) are assumed to only extend it. -/
theorem claimC9_no_mutation
    (s : Store) (r q : Nat) (hq : q < s.length)
    (fn1 : JSVal → JSVal)
    (fn2 : JSVal → Store → Store × Nat) (h2 : ∀ a t, t <+: (fn2 a t).1)
    (fn3 : Unit → Store → Store × Nat) (h3 : ∀ t, t <+: (fn3 () t).1)
    (matcher : Catamorphism JSVal JSVal)
    (p : JSVal → Bool)
    (fnState : Option (JSVal → JSVal))
    (k : String)
    (other : Option JSVal ⊕ (JSVal → Store → Store × Nat))
    (hother : ∀ f, other = Sum.inr f → ∀ a t, t <+: (f a t).1)
    (eff : JSVal → Store → Store) (heff : ∀ a t, t <+: eff a t)
    (eff0 : Unit → Store → Store) (heff0 : ∀ t, t <+: eff0 () t)
    (fb : Unit → JSVal) (d : JSVal) :
    (Store.read (mapH fn1 s r).1 q = Store.read s q) ∧
    (Store.read (andThenH fn2 s r).1 q = Store.read s q) ∧
    (Store.read (orElseH fn3 s r).1 q = Store.read s q) ∧
    ((cataH matcher s r).1 = s) ∧
    (Store.read (filterH p s r).1 q = Store.read s q) ∧
    ((existsH p s r).1 = s) ∧
    (Store.read (apH fnState s r).1 q = Store.read s q) ∧
    (Store.read (assignH k other s r).1 q = Store.read s q) ∧
    (Store.read (doH eff s r).1 q = Store.read s q) ∧
    (Store.read (elseDoH eff0 s r).1 q = Store.read s q) ∧
    ((getOrElseH fb s r).1 = s) ∧
    ((getOrElseValueH d s r).1 = s) := by
  refine ⟨prefix_read (mapH_extendsStore fn1 s r) hq,
          prefix_read (andThenH_extendsStore fn2 h2 s r) hq,
          prefix_read (orElseH_extendsStore fn3 h3 s r) hq,
          ?_,
          prefix_read (filterH_extendsStore p s r) hq,
          ?_,
          prefix_read (apH_extendsStore fnState s r) hq,
          prefix_read (assignH_extendsStore k other hother s r) hq,
          prefix_read (doH_extendsStore eff heff s r) hq,
          prefix_read (elseDoH_extendsStore eff0 heff0 s r) hq,
          ?_, ?_⟩
  · unfold cataH
    cases Store.read s r <;> rfl
  · unfold existsH
    cases Store.read s r <;> rfl
  · unfold getOrElseH
    cases Store.read s r <;> rfl
  · unfold getOrElseValueH getOrElseH
    cases Store.read s r <;> rfl

/-- Witness for C9 on a one-cell heap with concrete non-mutating
callbacks. -/
theorem claimC9_no_mutation_witness :
    Store.read (mapH (fun x => x) [some (JSVal.vnum 1)] 0).1 0
        = Store.read [some (JSVal.vnum 1)] 0 ∧
    Store.read (andThenH (fun a t => Store.alloc t (some a)) [some (JSVal.vnum 1)] 0).1 0
        = Store.read [some (JSVal.vnum 1)] 0 ∧
    Store.read (assignH "a" (Sum.inl (some (JSVal.vnum 2))) [some (JSVal.vnum 1)] 0).1 0
        = Store.read [some (JSVal.vnum 1)] 0 := by
  have h := claimC9_no_mutation [some (JSVal.vnum 1)] 0 0 (by decide)
    (fun x => x)
    (fun a t => Store.alloc t (some a)) (fun a t => List.prefix_append t [some a])
    (fun _ t => (t, 0)) (fun t => List.prefix_refl t)
    (Catamorphism.mk (fun a => a) (fun _ => JSVal.vnum 0))
    (fun _ => true)
    none
    "a"
    (Sum.inl (some (JSVal.vnum 2)))
    (fun f hf => Sum.noConfusion hf)
    (fun _ t => t) (fun a t => List.prefix_refl t)
    (fun _ t => t) (fun t => List.prefix_refl t)
    (fun _ => JSVal.vnum 0) (JSVal.vnum 0)
  exact ⟨h.1, h.2.1, h.2.2.2.2.2.2.2.1⟩

/-- C8.  `just` always constructs a present `Maybe` and `nothing` always
constructs an absent one: `isJust` is true (and `isNothing` false) on
every `just v`, and `isNothing` is true (and `isJust` false) on
`nothing`. -/
theorem claimC8_constructors (v : α) :
    (just v).isJust = true ∧ (just v).isNothing = false ∧
    (nothing : Maybe α).isNothing = true ∧ (nothing : Maybe α).isJust = false := by
  exact ⟨rfl, rfl, rfl, rfl⟩

end Maybeasy
